import Mathlib

/-!
Verification of the agent response validation / deduplication pipeline and the
surrounding chat endpoints of the project-school backend.

The Python sources are shallowly embedded: pure functions become Lean
functions over `List Char` / `String`, Python `dict` values decoded from JSON
become association lists over an inductive `Json` type, fallible external
calls (MongoDB reads, the model invocation) become `Except String`-valued
inputs to the orchestrator, and the orchestrator's `try/except` boundary
becomes a `match` on the resulting `Except`.
-/

namespace ProjectSchool

/-- The backtick character, written via its code point. -/
def btick : Char := Char.ofNat 96

/-- Python `str.strip()` / regex `\s` whitespace, restricted to the ASCII
whitespace characters that actually occur in model output. -/
def pyIsSpace (c : Char) : Bool :=
  c = ' ' || c = '\t' || c = '\n' || c = '\r' || c = Char.ofNat 11 || c = Char.ofNat 12

/-- JSON inter-token whitespace as accepted by Python's `json.loads`
(space, tab, newline, carriage return). -/
def jsonWs (c : Char) : Bool :=
  c = ' ' || c = '\t' || c = '\n' || c = '\r'

/-- Python `str.strip()` on a character list. -/
def pyStrip (l : List Char) : List Char :=
  ((l.dropWhile pyIsSpace).reverse.dropWhile pyIsSpace).reverse

/-- Python `str.split('\n')`: split at every newline, keeping empty pieces. -/
def splitNL : List Char → List (List Char)
  | [] => [[]]
  | c :: rest =>
    if c = '\n' then [] :: splitNL rest
    else
      match splitNL rest with
      | [] => [[c]]
      | h :: t => (c :: h) :: t

/-- Python `needle in haystack` on strings: contiguous-substring test. -/
def containsSub (haystack needle : List Char) : Bool :=
  haystack.tails.any (fun t => needle.isPrefixOf t)

/-- Python `str.lower()`, character by character (ASCII). -/
def lowerChars (l : List Char) : List Char := l.map Char.toLower

/-!
## Python/JSON value model

`Json` models the values produced by `json.loads`.  Numbers keep their source
lexeme (the numeric value itself is never inspected by the pipeline).
-/

/-- Decoded JSON values (Python values produced by `json.loads`). -/
inductive Json where
  | null : Json
  | bool (b : Bool) : Json
  | num (lit : String) : Json
  | str (s : String) : Json
  | arr (xs : List Json) : Json
  | obj (members : List (String × Json)) : Json
deriving Repr

/-- A decoded JSON object / Python dict, as an association list. -/
abbrev Pdict := List (String × Json)

/-- Python `d.get(k)` without default: `some` value or `none`. -/
def dictGet? (d : Pdict) (k : String) : Option Json :=
  (d.find? (fun kv => kv.fst == k)).map Prod.snd

/-- Python `d.get(k, dflt)`. -/
def dictGetD (d : Pdict) (k : String) (dflt : Json) : Json :=
  (dictGet? d k).getD dflt

mutual
/-- Python `repr` of a decoded JSON value (strings in single quotes);
numeric literals are rendered as their source lexeme. -/
def pyRepr : Json → String
  | .null => "None"
  | .bool true => "True"
  | .bool false => "False"
  | .num lit => lit
  | .str s => String.singleton (Char.ofNat 39) ++ s ++ String.singleton (Char.ofNat 39)
  | .arr xs => "[" ++ pyReprArr xs ++ "]"
  | .obj m => "\x7b" ++ pyReprObj m ++ "\x7d"

/-- Comma-joined `repr`s of list elements. -/
def pyReprArr : List Json → String
  | [] => ""
  | [x] => pyRepr x
  | x :: xs => pyRepr x ++ ", " ++ pyReprArr xs

/-- Comma-joined `repr`s of dict members. -/
def pyReprObj : List (String × Json) → String
  | [] => ""
  | [(k, v)] => String.singleton (Char.ofNat 39) ++ k ++ String.singleton (Char.ofNat 39) ++ ": " ++ pyRepr v
  | (k, v) :: m =>
    String.singleton (Char.ofNat 39) ++ k ++ String.singleton (Char.ofNat 39) ++ ": " ++ pyRepr v ++ ", " ++ pyReprObj m
end

/-- Python `str()` of a decoded JSON value: identity on strings,
`"None"`/`"True"`/`"False"` for the literals, `repr` for containers. -/
def pyStr : Json → String
  | .str s => s
  | .null => "None"
  | .bool true => "True"
  | .bool false => "False"
  | .num lit => lit
  | .arr xs => pyRepr (.arr xs)
  | .obj m => pyRepr (.obj m)

/-- Whether a numeric literal denotes zero (mantissa has no nonzero digit). -/
def numLitIsZero (lit : String) : Bool :=
  !(lit.data.takeWhile (fun c => c ≠ 'e' ∧ c ≠ 'E')).any (fun c => c.isDigit && c ≠ '0')

/-- Python truthiness of a decoded JSON value. -/
def pyTruthy : Json → Bool
  | .null => false
  | .bool b => b
  | .num lit => !numLitIsZero lit
  | .str s => !s.isEmpty
  | .arr xs => !xs.isEmpty
  | .obj m => !m.isEmpty

/-!
## Model of `json.loads`

A strict JSON reader over character lists, modelling Python's `json.loads` as
used by `parse_json_from_response`: inter-token whitespace, strings with the
standard escapes, numbers (kept as lexemes, with the leading-zero restriction),
`true`/`false`/`null`, arrays and objects; trailing input is rejected.
Recursion through arrays and objects is paid for with a fuel parameter that
the top-level wrapper instantiates with a sufficient bound.
-/

/-- The double-quote character, written via its code point. -/
def qt : Char := Char.ofNat 34

/-- The backslash character, written via its code point. -/
def bslash : Char := Char.ofNat 92

/-- Drop leading JSON whitespace. -/
def skipWs (l : List Char) : List Char := l.dropWhile jsonWs

/-- Hexadecimal digit test. -/
def isHexDig (c : Char) : Bool :=
  c.isDigit || ('a' ≤ c && c ≤ 'f') || ('A' ≤ c && c ≤ 'F')

/-- Value of a hexadecimal digit. -/
def hexVal (c : Char) : Nat :=
  if c.isDigit then c.toNat - 48
  else if 'a' ≤ c && c ≤ 'f' then c.toNat - 87
  else c.toNat - 55

/-- Translation of a single-character JSON string escape. -/
def escChar (c : Char) : Option Char :=
  if c = qt then some qt
  else if c = bslash then some bslash
  else if c = '/' then some '/'
  else if c = 'b' then some (Char.ofNat 8)
  else if c = 'f' then some (Char.ofNat 12)
  else if c = 'n' then some '\n'
  else if c = 'r' then some '\r'
  else if c = 't' then some '\t'
  else none

/-- Read a JSON string body (input begins after the opening quote); returns the
decoded characters and the input following the closing quote.  Raw control
characters are rejected, as in strict `json.loads`. -/
def parseStringBody : List Char → Option (List Char × List Char)
  | [] => none
  | c :: rest =>
    if c = qt then some ([], rest)
    else if c = bslash then
      match rest with
      | 'u' :: a :: b :: c2 :: d :: rest2 =>
        if isHexDig a && isHexDig b && isHexDig c2 && isHexDig d then
          (parseStringBody rest2).map (fun p =>
            (Char.ofNat (((hexVal a * 16 + hexVal b) * 16 + hexVal c2) * 16 + hexVal d) :: p.1, p.2))
        else none
      | e :: rest2 =>
        match escChar e with
        | some ec => (parseStringBody rest2).map (fun p => (ec :: p.1, p.2))
        | none => none
      | [] => none
    else if c.toNat < 32 then none
    else (parseStringBody rest).map (fun p => (c :: p.1, p.2))

/-- Read a JSON number, returning its lexeme and the remaining input. -/
def parseNumLex (cs : List Char) : Option (Json × List Char) :=
  let (sign, cs1) := match cs with
    | '-' :: r => (['-'], r)
    | _ => (([] : List Char), cs)
  let intPart := cs1.takeWhile Char.isDigit
  if intPart.isEmpty then none
  else if intPart.length > 1 && intPart.headD '0' = '0' then none
  else
    let cs2 := cs1.drop intPart.length
    let fracRes : Option (List Char × List Char) := match cs2 with
      | '.' :: r =>
        let ds := r.takeWhile Char.isDigit
        if ds.isEmpty then none else some ('.' :: ds, r.drop ds.length)
      | _ => some ([], cs2)
    match fracRes with
    | none => none
    | some (frac, cs3) =>
      let expRes : Option (List Char × List Char) := match cs3 with
        | e :: r =>
          if e = 'e' || e = 'E' then
            let (sgn, r2) := match r with
              | '+' :: r2 => (['+'], r2)
              | '-' :: r2 => (['-'], r2)
              | _ => (([] : List Char), r)
            let ds := r2.takeWhile Char.isDigit
            if ds.isEmpty then none else some (e :: sgn ++ ds, r2.drop ds.length)
          else some ([], cs3)
        | [] => some ([], cs3)
      match expRes with
      | none => none
      | some (ex, cs4) =>
        some (Json.num (String.mk (sign ++ intPart ++ frac ++ ex)), cs4)

mutual
/-- Read one JSON value (fuelled). -/
def parseVal : Nat → List Char → Option (Json × List Char)
  | 0, _ => none
  | fuel + 1, cs =>
    match skipWs cs with
    | [] => none
    | c :: rest =>
      if c = qt then
        (parseStringBody rest).map (fun p => (Json.str (String.mk p.1), p.2))
      else if c = '[' then
        match skipWs rest with
        | c2 :: r2 =>
          if c2 = ']' then some (Json.arr [], r2)
          else (parseElems fuel (c2 :: r2)).map (fun p => (Json.arr p.1, p.2))
        | [] => none
      else if c = '{' then
        match skipWs rest with
        | c2 :: r2 =>
          if c2 = '}' then some (Json.obj [], r2)
          else (parseMembers fuel (c2 :: r2)).map (fun p => (Json.obj p.1, p.2))
        | [] => none
      else
        match c :: rest with
        | 't' :: 'r' :: 'u' :: 'e' :: r2 => some (Json.bool true, r2)
        | 'f' :: 'a' :: 'l' :: 's' :: 'e' :: r2 => some (Json.bool false, r2)
        | 'n' :: 'u' :: 'l' :: 'l' :: r2 => some (Json.null, r2)
        | l =>
          if c = '-' || c.isDigit then parseNumLex l else none

/-- Read a nonempty comma-separated list of values followed by `]` (fuelled). -/
def parseElems : Nat → List Char → Option (List Json × List Char)
  | 0, _ => none
  | fuel + 1, cs =>
    match parseVal fuel cs with
    | none => none
    | some (v, r) =>
      match skipWs r with
      | c2 :: r2 =>
        if c2 = ',' then
          match parseElems fuel (skipWs r2) with
          | none => none
          | some (vs, r3) => some (v :: vs, r3)
        else if c2 = ']' then some ([v], r2)
        else none
      | [] => none

/-- Read a nonempty comma-separated list of object members followed by `}`
(fuelled). -/
def parseMembers : Nat → List Char → Option (List (String × Json) × List Char)
  | 0, _ => none
  | fuel + 1, cs =>
    match skipWs cs with
    | c :: rest =>
      if c = qt then
        match parseStringBody rest with
        | none => none
        | some (k, r) =>
          match skipWs r with
          | c2 :: r2 =>
            if c2 = ':' then
              match parseVal fuel (skipWs r2) with
              | none => none
              | some (v, r3) =>
                match skipWs r3 with
                | c3 :: r4 =>
                  if c3 = ',' then
                    match parseMembers fuel (skipWs r4) with
                    | none => none
                    | some (ms, r5) => some ((String.mk k, v) :: ms, r5)
                  else if c3 = '}' then some ([(String.mk k, v)], r4)
                  else none
                | [] => none
            else none
          | [] => none
      else none
    | [] => none
end

/-- Model of Python `json.loads` on a character list: one value, with
surrounding whitespace allowed and trailing input rejected. -/
def jsonLoads (cs : List Char) : Option Json :=
  match parseVal (2 * cs.length + 2) cs with
  | some (v, r) => if skipWs r = [] then some v else none
  | none => none

/-!
## Response Parser (`parse_json_from_response`, src/agents/learning_agent.py)
-/

/-- The seven characters of the fenced-with-language-tag marker. -/
def fenceJsonChars : List Char := [btick, btick, btick, 'j', 's', 'o', 'n']

/-- The three characters of the bare fence marker. -/
def fenceChars : List Char := [btick, btick, btick]

/-- Scan for the first regex substitution: delete each occurrence of the
seven-character fenced-with-language-tag marker together with the whitespace
following it (fuelled; every step consumes at least one character). -/
def subFenceJsonF : Nat → List Char → List Char
  | 0, l => l
  | _ + 1, [] => []
  | fuel + 1, c :: rest =>
    if (c :: rest).take 7 = fenceJsonChars then
      subFenceJsonF fuel ((rest.drop 6).dropWhile pyIsSpace)
    else c :: subFenceJsonF fuel rest

/-- Removal of every fenced-with-language-tag marker and trailing whitespace,
modelling the first regex substitution of the parser. -/
def subFenceJson (l : List Char) : List Char := subFenceJsonF l.length l

/-- Scan for the second regex substitution: delete each occurrence of the
three-character bare fence marker together with following whitespace. -/
def subFenceF : Nat → List Char → List Char
  | 0, l => l
  | _ + 1, [] => []
  | fuel + 1, c :: rest =>
    if (c :: rest).take 3 = fenceChars then
      subFenceF fuel ((rest.drop 2).dropWhile pyIsSpace)
    else c :: subFenceF fuel rest

/-- `re.sub` removing the bare fence marker and trailing whitespace. -/
def subFence (l : List Char) : List Char := subFenceF l.length l

/-- Greedy bracket-span search of the parser: the span from the first opening
bracket to the last closing bracket, when the latter lies beyond the former. -/
def bracketSpan (cs : List Char) : Option (List Char) :=
  let fromBracket := cs.dropWhile (fun c => c ≠ '[')
  if fromBracket.isEmpty then none
  else
    let upto := (fromBracket.reverse.dropWhile (fun c => c ≠ ']')).reverse
    if upto.isEmpty then none else some upto

/-- Payload handed to the JSON decoder by `parse_json_from_response`: the
input stripped, with both code-fence markers removed, stripped again, and
narrowed to the first-to-last bracket span when one is present. -/
def extractedPayload (response_text : String) : List Char :=
  let cleaned := pyStrip (subFence (subFenceJson (pyStrip response_text.data)))
  (bracketSpan cleaned).getD cleaned

/-- `parse_json_from_response` (src/agents/learning_agent.py, lines 74-118):
strip, remove both code-fence markers, strip again, extract the first-to-last
bracket span when present, decode it, and return the decoded array's elements;
on decode failure or a non-array value, return the empty list. -/
def parse_json_from_response (response_text : String) : List Json :=
  match jsonLoads (extractedPayload response_text) with
  | some (Json.arr tasks) => tasks
  | _ => []

/-!
## Orchestrator (`run_learning_agent`, src/agents/learning_agent.py)

External effects (MongoDB reads and the model invocation) are supplied as
`Except String`-valued fields of `Externals`; a raised Python exception is an
`Except.error` carrying the exception text.  The `try/except` wrapper at the
orchestrator boundary becomes a `match` on the `Except` result of the body.
-/

/-- The mode trigger phrases tested against the lowercased message
(src/agents/learning_agent.py, lines 326-330). -/
def triggerPhrases : List String :=
  ["updated the goals", "share the revised tasks", "share tasks"]

/-- Mode classification: a nonempty message containing (case-insensitively)
any trigger phrase selects task-assignment mode; everything else, including an
absent or empty message, is conversational. -/
def isTaskAssignmentMode (user_message : Option String) : Bool :=
  match user_message with
  | none => false
  | some m => !m.isEmpty && triggerPhrases.any (fun p => containsSub (lowerChars m.data) p.data)

/-- Identifier under which a parsed candidate is validated:
Python `str(task.get("id", ""))`. -/
def candidateId (task : Pdict) : String :=
  pyStr (dictGetD task "id" (Json.str ""))

/-- Task Validator (src/agents/learning_agent.py, lines 504-515): keep the
candidates whose identifier is a member of the authoritative identifier set. -/
def validate_tasks (parsed_tasks : List Pdict) (valid_task_ids : List String) : List Pdict :=
  parsed_tasks.filter (fun task => valid_task_ids.contains (candidateId task))

/-- A user's assignment document, carrying its task sub-records as decoded
objects (the `tasks` array of the `assignments` collection). -/
structure AssignmentDoc where
  tasks : List Pdict
deriving Repr

/-- Identifiers of a user's already-assigned tasks, as the Duplicate Filter
collects them: the set comprehension over sub-records with a truthy `taskId`
(src/agents/learning_agent.py, line 524). -/
def assignedTaskIds (tasks : List Pdict) : List String :=
  tasks.filterMap (fun t =>
    let v := dictGetD t "taskId" Json.null
    if pyTruthy v then some (pyStr v) else none)

/-- Duplicate Filter (src/agents/learning_agent.py, lines 521-535): when the
user has an assignment with a nonempty task array, drop the validated
candidates whose identifier (Python `str(task.get("id"))`) already appears
among the assigned identifiers; otherwise pass the list through unchanged. -/
def duplicate_filter (validated_tasks : List Pdict) (assignment : Option AssignmentDoc) :
    List Pdict :=
  match assignment with
  | none => validated_tasks
  | some a =>
    if a.tasks.isEmpty then validated_tasks
    else
      validated_tasks.filter (fun task =>
        !(assignedTaskIds a.tasks).contains (pyStr (dictGetD task "id" Json.null)))

/-- An enriched recommendation record (src/agents/learning_agent.py,
lines 554-562): raw candidate fields plus the fixed project's identifier and
name. -/
structure EnrichedTask where
  taskId : Json
  taskName : Json
  projectId : String
  projectName : Json
deriving Repr

/-- The fixed target project identifier hard-coded in the orchestrator. -/
def fixedProjectId : String := "695caa41c485455f397017ae"

/-- Enricher (src/agents/learning_agent.py, lines 553-562): attach the project
identifier and name to each surviving candidate. -/
def enrich_tasks (validated_tasks : List Pdict) (project_name : Json) : List EnrichedTask :=
  validated_tasks.map (fun task =>
    { taskId := dictGetD task "id" Json.null
      taskName := dictGetD task "title" Json.null
      projectId := fixedProjectId
      projectName := project_name })

/-- Result dictionary of one orchestrator invocation; `tasks = none` models a
result dictionary without a `tasks` key. -/
structure AgentResult where
  response_text : String
  status : String
  tasks : Option (List EnrichedTask)
deriving Repr

/-- One invocation's external world: each field is the outcome of the
corresponding external call (store read or model invocation), `Except.error`
carrying the text of a raised exception. -/
structure Externals where
  agentDoc : Except String (Option Pdict)
  apiKey : Option String
  llmResponse : Except String String
  projectTasks : Except String (List Pdict)
  assignment : Except String (Option AssignmentDoc)
  projectDoc : Except String (Option Pdict)

/-- Python `"_id"` lookup used to build the authoritative identifier set:
`str(task["_id"])` raises `KeyError` when the key is missing. -/
def taskPrimaryId (task : Pdict) : Except String String :=
  match dictGet? task "_id" with
  | some v => Except.ok (pyStr v)
  | none => Except.error "KeyError: _id"

/-- Python `task.get(...)` on a parsed element: a non-object element raises
`AttributeError` when the validation loop touches it. -/
def asDict (j : Json) : Except String Pdict :=
  match j with
  | Json.obj m => Except.ok m
  | _ => Except.error "AttributeError: get"

/-- Sequential traversal of a Python loop body that may raise: stop at the
first error, otherwise collect the results in order. -/
def mapMExcept (f : α → Except String β) : List α → Except String (List β)
  | [] => Except.ok []
  | x :: xs =>
    match f x with
    | Except.error e => Except.error e
    | Except.ok y =>
      match mapMExcept f xs with
      | Except.error e => Except.error e
      | Except.ok ys => Except.ok (y :: ys)

/-- Agent display name (src/agents/learning_agent.py, lines 142-146). -/
def agentNameOf (agent_doc : Option Pdict) : String :=
  match agent_doc with
  | none => "Study Buddy"
  | some d =>
    match dictGet? d "agentName" with
    | some v => pyStr v
    | none => "Study Buddy"

/-- Project display name for enrichment (src/agents/learning_agent.py,
lines 541-548). -/
def projectNameOf (project_doc : Option Pdict) : Json :=
  match project_doc with
  | none => Json.str "Project School"
  | some d => dictGetD d "name" (Json.str "Project School")

/-- Body of `run_learning_agent` inside its `try` block
(src/agents/learning_agent.py, lines 135-580): fetch the agent document,
require the API key, classify the mode, invoke the model, and in
task-assignment mode run Parser, Validator, Duplicate Filter and Enricher over
freshly fetched store data. -/
def agentBody (ext : Externals) (user_message : Option String) :
    Except String AgentResult :=
  match ext.agentDoc with
  | Except.error e => Except.error e
  | Except.ok agent_doc =>
    let _agent_name := agentNameOf agent_doc
    match ext.apiKey with
    | none => Except.error "GOOGLE_API_KEY not found"
    | some _api_key =>
      match ext.llmResponse with
      | Except.error e => Except.error e
      | Except.ok final_response =>
        if isTaskAssignmentMode user_message then
          match ext.projectTasks with
          | Except.error e => Except.error e
          | Except.ok all_project_tasks =>
            match mapMExcept taskPrimaryId all_project_tasks with
            | Except.error e => Except.error e
            | Except.ok valid_task_ids =>
              match mapMExcept asDict (parse_json_from_response final_response) with
              | Except.error e => Except.error e
              | Except.ok parsed_dicts =>
                match ext.assignment with
                | Except.error e => Except.error e
                | Except.ok assignment =>
                  match ext.projectDoc with
                  | Except.error e => Except.error e
                  | Except.ok project_doc =>
                    let enriched :=
                      enrich_tasks
                        (duplicate_filter (validate_tasks parsed_dicts valid_task_ids)
                          assignment)
                        (projectNameOf project_doc)
                    Except.ok
                      { response_text :=
                          "I've selected " ++ toString enriched.length ++
                            " personalized tasks for your learning path. Here they are:"
                        status := "success"
                        tasks := some enriched }
        else
          Except.ok
            { response_text := final_response, status := "success", tasks := none }

/-- `run_learning_agent` (src/agents/learning_agent.py, lines 122-587): the
body wrapped by the boundary `try/except` that converts any raised exception
into a status-error result. -/
def run_learning_agent (ext : Externals) (user_message : Option String) : AgentResult :=
  match agentBody ext user_message with
  | Except.ok r => r
  | Except.error e =>
    { response_text := "An error occurred: " ++ e, status := "error", tasks := none }

/-!
## Chat endpoint (src/routers/chat.py)
-/

/-- A synthetic task extracted from a numbered-list response
(src/routers/chat.py, lines 37-83). -/
structure SuggestedTask where
  taskId : String
  name : String
  isSuggested : Bool
deriving Repr, DecidableEq

/-- Match one stripped line against the numbered-item pattern: one or more
digits, a dot or closing parenthesis, then a nonempty remainder; the captured
description is the stripped remainder. -/
def matchNumberedLine (line : List Char) : Option SuggestedTask :=
  let digits := line.takeWhile Char.isDigit
  if digits.isEmpty then none
  else
    match line.drop digits.length with
    | [] => none
    | c :: rest =>
      if (c = '.' || c = ')') && !rest.isEmpty then
        some { taskId := "suggested_task_" ++ String.mk digits
               name := String.mk (pyStrip rest)
               isSuggested := true }
      else none

/-- Attempt to match the numbered-item pattern at the head of the input:
digits, a dot or closing parenthesis, then greedy whitespace; on success
return the input following the match. -/
def tryNumMatch (cs : List Char) : Option (List Char) :=
  let digits := cs.takeWhile Char.isDigit
  if digits.isEmpty then none
  else
    match cs.drop digits.length with
    | c :: rest => if c = '.' || c = ')' then some (rest.dropWhile pyIsSpace) else none
    | [] => none

/-- Regex split on the numbered-item pattern: the segments of the input lying
between successive leftmost matches (fuelled; every step consumes at least one
character). -/
def splitNumF : Nat → List Char → List (List Char)
  | 0, l => [l]
  | _ + 1, [] => [[]]
  | fuel + 1, c :: rest =>
    match tryNumMatch (c :: rest) with
    | some rem => [] :: splitNumF fuel rem
    | none =>
      match splitNumF fuel rest with
      | [] => [[c]]
      | h :: t => (c :: h) :: t

/-- Regex split of the fallback branch of the response-to-tasks parser. -/
def splitNum (l : List Char) : List (List Char) := splitNumF l.length l

/-- `parse_agent_response_to_tasks` (src/routers/chat.py, lines 37-83): match
each stripped line of the stripped text against the numbered-item pattern;
when no line matches, fall back to splitting the whole original text on the
numbering pattern and keeping the nonblank survivors, numbered by their
position among the pieces after the first. -/
def parse_agent_response_to_tasks (response_text : String) : List SuggestedTask :=
  let lines := splitNL (pyStrip response_text.data)
  let tasks := lines.filterMap (fun rawLine =>
    let line := pyStrip rawLine
    if line.isEmpty then none else matchNumberedLine line)
  if tasks.isEmpty then
    match splitNum response_text.data with
    | [] => []
    | _first :: parts =>
      parts.enum.filterMap (fun ip =>
        let stripped := pyStrip ip.2
        if stripped.isEmpty then none
        else some { taskId := "suggested_task_" ++ toString (ip.1 + 1)
                    name := String.mk stripped
                    isSuggested := true })
  else tasks

/-- Test used by the endpoint to decide whether a response looks like a task
list: at least three lines whose stripped form begins with a digit
(src/routers/chat.py, lines 154-158). -/
def is_task_list_response (text : String) : Bool :=
  let lines := splitNL (pyStrip text.data)
  let numbered := lines.filter (fun l =>
    let s := pyStrip l
    !s.isEmpty && (s.headD ' ').isDigit)
  decide (3 ≤ numbered.length)

/-- The agent-name-update message marker (src/routers/chat.py, line 103 and
src/agents/learning_agent.py, line 30). -/
def agentNameUpdateMarker : String := "Updated the name of the agent to "

/-- `handle_agent_name_update` (src/agents/learning_agent.py, lines 16-50):
strip the remainder after the marker and greet with it; a message not carrying
the marker yields the generic greeting. -/
def handle_agent_name_update (message : String) : String :=
  if agentNameUpdateMarker.data.isPrefixOf message.data then
    let agent_name := String.mk (pyStrip (message.data.drop agentNameUpdateMarker.length))
    "Hello! I'm " ++ agent_name ++ ". How can I help you today?"
  else
    "Hello! How can I help you today?"

/-- Guard of the endpoint's name-update branch (src/routers/chat.py,
line 103): a present, nonempty message starting with the marker. -/
def isNameUpdateMsg (message : Option String) : Bool :=
  match message with
  | some m => !m.isEmpty && agentNameUpdateMarker.data.isPrefixOf m.data
  | none => false

/-- The triple the chat endpoint computes and returns to its caller: the agent
response text (stored as the chat message), the status flag, and the tasks
array (src/routers/chat.py, lines 101-151). -/
structure ChatOutcome where
  message : String
  status : String
  tasks : List SuggestedTask
deriving Repr, DecidableEq

/-- `chat_with_agent` (src/routers/chat.py, lines 86-151), with the agent
invocation supplied as a function of the optional message: a message starting
with the name-update marker short-circuits to the greeting with no tasks;
otherwise the agent runs and tasks are re-parsed from its response text
exactly when that text looks like a task list. -/
def chat_with_agent (message : Option String)
    (runAgent : Option String → AgentResult) : ChatOutcome :=
  if isNameUpdateMsg message then
    { message := handle_agent_name_update (message.getD "")
      status := "success"
      tasks := [] }
  else
    let result := runAgent message
    let agent_response := result.response_text
    let tasks :=
      if is_task_list_response agent_response then
        parse_agent_response_to_tasks agent_response
      else []
    { message := agent_response, status := result.status, tasks := tasks }

/-!
## Assignment insertion (`link_user_to_task`, src/routers/tasks.py)
-/

/-- A task-assignment sub-record as written by `link_user_to_task`
(src/routers/tasks.py, lines 111-117). -/
structure TaskAssignmentRec where
  taskId : String
  assignedBy : String
  sequenceId : Option Int
  isCompleted : Bool
  comments : List String
deriving Repr, DecidableEq

/-- MongoDB array update with the set operator: append the element unless an
identical element (the whole sub-document) is already present. -/
def addToSet (l : List TaskAssignmentRec) (x : TaskAssignmentRec) : List TaskAssignmentRec :=
  if l.contains x then l else l ++ [x]

/-- Request payload of `link_user_to_task`. -/
structure UserTaskLink where
  taskId : String
  assignedBy : String
  sequenceId : Option Int
deriving Repr, DecidableEq

/-- Store-level effect of `link_user_to_task` (src/routers/tasks.py,
lines 93-131) on the user's task array, after the payload has passed the
task-existence checks: upsert the assignment document and add the new
sub-record with the set-like array update. -/
def link_user_to_task (existing : Option (List TaskAssignmentRec))
    (payload : UserTaskLink) : List TaskAssignmentRec :=
  addToSet (existing.getD [])
    { taskId := payload.taskId
      assignedBy := payload.assignedBy
      sequenceId := payload.sequenceId
      isCompleted := false
      comments := [] }

/-!
## Theorems
-/

/-- Membership reading of the Boolean `contains` check on identifier lists. -/
theorem contains_iff_mem_str (l : List String) (a : String) :
    l.contains a = true ↔ a ∈ l := by
  simp

/-- C1: the Task Validator's output is a sublist of the parsed candidate list
(hence no longer than it, and order-preserving), and every surviving
candidate's identifier is a member of the authoritative identifier set. -/
theorem validator_output_valid_sublist (parsed : List Pdict) (valid : List String) :
    (validate_tasks parsed valid).Sublist parsed ∧
    (validate_tasks parsed valid).length ≤ parsed.length ∧
    ∀ task ∈ validate_tasks parsed valid, candidateId task ∈ valid := by
  refine ⟨List.filter_sublist parsed, (List.filter_sublist parsed).length_le, ?_⟩
  intro task htask
  have h := List.of_mem_filter htask
  exact (contains_iff_mem_str valid (candidateId task)).mp h

/-- Witness for C1 at a concrete candidate list and identifier set. -/
theorem validator_output_valid_sublist_witness :
    candidateId [("id", Json.str "t1"), ("title", Json.str "Intro")] ∈ ["t1", "t2"] := by
  refine (validator_output_valid_sublist
    [[("id", Json.str "t1"), ("title", Json.str "Intro")],
     [("id", Json.str "t9"), ("title", Json.str "Fake")]] ["t1", "t2"]).2.2
    [("id", Json.str "t1"), ("title", Json.str "Intro")] ?_
  rw [show validate_tasks
      [[("id", Json.str "t1"), ("title", Json.str "Intro")],
       [("id", Json.str "t9"), ("title", Json.str "Fake")]] ["t1", "t2"] =
      [[("id", Json.str "t1"), ("title", Json.str "Intro")]] from rfl]
  exact List.mem_singleton.mpr rfl

/-- Identifier under which the Duplicate Filter tests a validated candidate:
Python `str(task.get("id"))`. -/
def filterId (task : Pdict) : String := pyStr (dictGetD task "id" Json.null)

/-- C2: against an assignment record the Duplicate Filter keeps no candidate
whose identifier appears among the assignment's task identifiers, preserves
the order of survivors (output is a sublist of the input), passes everything
through unchanged when the user has no assignment, and is idempotent against
the same assignment snapshot. -/
theorem duplicate_filter_spec (cands : List Pdict) (a : AssignmentDoc) :
    (∀ task ∈ duplicate_filter cands (some a),
        filterId task ∉ assignedTaskIds a.tasks) ∧
    (duplicate_filter cands (some a)).Sublist cands ∧
    duplicate_filter cands none = cands ∧
    ∀ asg : Option AssignmentDoc,
      duplicate_filter (duplicate_filter cands asg) asg = duplicate_filter cands asg := by
  refine ⟨?_, ?_, rfl, ?_⟩
  · intro task htask
    by_cases he : a.tasks.isEmpty
    · have : a.tasks = [] := by simpa using he
      rw [this]
      simp [assignedTaskIds]
    · rw [duplicate_filter, if_neg he] at htask
      have h := List.of_mem_filter htask
      simp only [Bool.not_eq_true', ← Bool.not_eq_true] at h
      intro hmem
      exact h ((contains_iff_mem_str _ _).mpr hmem)
  · by_cases he : a.tasks.isEmpty
    · rw [duplicate_filter, if_pos he]
    · rw [duplicate_filter, if_neg he]
      exact List.filter_sublist cands
  · intro asg
    match asg with
    | none => rfl
    | some a2 =>
      by_cases he : a2.tasks.isEmpty
      · rw [duplicate_filter, duplicate_filter, if_pos he, if_pos he]
      · rw [duplicate_filter, duplicate_filter, if_neg he, if_neg he]
        refine List.filter_eq_self.mpr ?_
        intro t ht
        exact (List.mem_filter.mp ht).2

/-- Witness for C2 at a concrete candidate list and assignment snapshot. -/
theorem duplicate_filter_spec_witness :
    filterId [("id", Json.str "t1")] ∉
      assignedTaskIds (AssignmentDoc.mk [[("taskId", Json.str "t2")]]).tasks := by
  refine (duplicate_filter_spec [[("id", Json.str "t1")]]
    (AssignmentDoc.mk [[("taskId", Json.str "t2")]])).1 [("id", Json.str "t1")] ?_
  rw [show duplicate_filter [[("id", Json.str "t1")]]
      (some (AssignmentDoc.mk [[("taskId", Json.str "t2")]])) =
      [[("id", Json.str "t1")]] from rfl]
  exact List.mem_singleton.mpr rfl

/-- C9 (failing input): the set-like array update of `link_user_to_task`
deduplicates whole sub-documents only.  Re-inserting an identical sub-record
is a no-op, but inserting the same task identifier with a different assigner
or sequence position appends a second sub-record, so two sub-records of the
resulting assignment share the task identifier `t1`. -/
theorem link_user_to_task_duplicate_taskId :
    link_user_to_task
        (some [{ taskId := "t1", assignedBy := "admin", sequenceId := some 1,
                 isCompleted := false, comments := [] }])
        { taskId := "t1", assignedBy := "admin", sequenceId := some 1 } =
      [{ taskId := "t1", assignedBy := "admin", sequenceId := some 1,
         isCompleted := false, comments := [] }] ∧
    ((link_user_to_task
        (some [{ taskId := "t1", assignedBy := "admin", sequenceId := some 1,
                 isCompleted := false, comments := [] }])
        { taskId := "t1", assignedBy := "user", sequenceId := some 2 }).filter
      (fun r => r.taskId == "t1")).length = 2 := by
  constructor
  · rfl
  · rfl

/-- Substring characterization of the Boolean containment test. -/
theorem containsSub_iff (h n : List Char) :
    containsSub h n = true ↔ ∃ l r : List Char, h = l ++ n ++ r := by
  rw [containsSub, List.any_eq_true]
  constructor
  · rintro ⟨t, ht, hp⟩
    have hsuf : t <:+ h := (List.mem_tails t h).mp ht
    have hpre : n <+: t := List.isPrefixOf_iff_prefix.mp hp
    have : n <:+: h := List.infix_iff_prefix_suffix.mpr ⟨t, hpre, hsuf⟩
    obtain ⟨l, r, hlr⟩ := this
    exact ⟨l, r, hlr.symm⟩
  · rintro ⟨l, r, rfl⟩
    refine ⟨n ++ r, (List.mem_tails _ _).mpr ⟨l, by simp⟩, ?_⟩
    exact List.isPrefixOf_iff_prefix.mpr ⟨r, rfl⟩

/-- Each trigger phrase is nonempty. -/
theorem triggerPhrases_ne_nil : ∀ p ∈ triggerPhrases, p.data ≠ [] := by
  decide

/-- C5: mode classification is a function of the current message alone; a
present message is classified as task assignment exactly when its lowercased
text contains one of the fixed trigger phrases as a contiguous substring, and
the three sample messages classify as the spec states. -/
theorem mode_classification :
    (∀ m : String, isTaskAssignmentMode (some m) = true ↔
        ∃ p ∈ triggerPhrases, ∃ l r : List Char,
          lowerChars m.data = l ++ p.data ++ r) ∧
    isTaskAssignmentMode none = false ∧
    isTaskAssignmentMode (some "Updated the goals. Share the revised tasks.") = true ∧
    isTaskAssignmentMode (some "share tasks please") = true ∧
    isTaskAssignmentMode (some "What skills do I need for a data science role?") = false := by
  refine ⟨?_, rfl, by decide, by decide, by decide⟩
  intro m
  rw [isTaskAssignmentMode, Bool.and_eq_true, List.any_eq_true]
  constructor
  · rintro ⟨-, p, hp, hc⟩
    obtain ⟨l, r, hlr⟩ := (containsSub_iff _ _).mp hc
    exact ⟨p, hp, l, r, hlr⟩
  · rintro ⟨p, hp, l, r, hlr⟩
    refine ⟨?_, p, hp, (containsSub_iff _ _).mpr ⟨l, r, hlr⟩⟩
    rw [Bool.not_eq_true']
    by_contra hne
    rw [Bool.not_eq_false] at hne
    have hmnil : m.data = [] := by
      rw [(String.isEmpty_iff m).mp hne]
    rw [hmnil] at hlr
    simp only [lowerChars, List.map_nil] at hlr
    have h2 := (List.append_eq_nil.mp hlr.symm).1
    exact triggerPhrases_ne_nil p hp (List.append_eq_nil.mp h2).2

/-- Witness for C5: instantiating the characterization at a concrete message
containing a trigger phrase. -/
theorem mode_classification_witness :
    isTaskAssignmentMode (some "please share tasks now") = true :=
  (mode_classification.1 "please share tasks now").mpr
    ⟨"share tasks", by decide, "please ".data, " now".data, by decide⟩

/-- C10: a message starting with the agent-name-update marker short-circuits
the chat endpoint: the returned outcome does not depend on the agent function
(the model pipeline is never consulted), the status is success, the tasks list
is empty, and the response text greets with the whitespace-stripped remainder
of the message after the marker. -/
theorem name_update_short_circuit (m : String)
    (h : agentNameUpdateMarker.data.isPrefixOf m.data = true)
    (runAgent : Option String → AgentResult) :
    chat_with_agent (some m) runAgent =
      { message := "Hello! I'm " ++
          String.mk (pyStrip (m.data.drop agentNameUpdateMarker.length)) ++
          ". How can I help you today?"
        status := "success"
        tasks := [] } := by
  obtain ⟨rest, hrest⟩ := List.isPrefixOf_iff_prefix.mp h
  have hne : m.isEmpty = false := by
    rw [Bool.eq_false_iff]
    intro habs
    rw [(String.isEmpty_iff m).mp habs] at hrest
    simp [agentNameUpdateMarker] at hrest
  rw [chat_with_agent, isNameUpdateMsg, hne, h, if_pos (by rfl)]
  simp only [Option.getD_some]
  rw [handle_agent_name_update, if_pos h]

/-- Witness for C10 at a concrete name-update message. -/
theorem name_update_short_circuit_witness :
    chat_with_agent (some "Updated the name of the agent to   Ada  ")
        (fun _ => { response_text := "unused", status := "success", tasks := none }) =
      { message := "Hello! I'm Ada. How can I help you today?"
        status := "success"
        tasks := [] } := by
  rw [name_update_short_circuit "Updated the name of the agent to   Ada  " (by decide)
    (fun _ => { response_text := "unused", status := "success", tasks := none })]
  decide

/-- C4: the Response Parser is a total function, and whenever decoding the
extracted payload fails or yields a non-array value it returns the empty list;
on every input it either returns the empty list or the elements of the decoded
array; the concrete empty, garbage, truncated and non-array inputs all yield
the empty list. -/
theorem parser_total_fail_closed :
    (∀ s : String,
        (¬ ∃ ts, jsonLoads (extractedPayload s) = some (Json.arr ts)) →
          parse_json_from_response s = []) ∧
    (∀ s : String, parse_json_from_response s = [] ∨
        ∃ ts, jsonLoads (extractedPayload s) = some (Json.arr ts) ∧
          parse_json_from_response s = ts) ∧
    parse_json_from_response "" = [] ∧
    parse_json_from_response "total garbage !!" = [] ∧
    parse_json_from_response "[\x7b\"id\": \"t1\"" = [] ∧
    parse_json_from_response "\x7b\"id\": \"t1\", \"title\": \"Intro\"\x7d" = [] := by
  refine ⟨?_, ?_, rfl, rfl, rfl, rfl⟩
  · intro s h
    rw [parse_json_from_response]
    cases hj : jsonLoads (extractedPayload s) with
    | none => rfl
    | some v =>
      cases v with
      | arr ts => exact absurd ⟨ts, hj⟩ h
      | null => rfl
      | bool b => rfl
      | num lit => rfl
      | str s2 => rfl
      | obj m => rfl
  · intro s
    rw [parse_json_from_response]
    cases hj : jsonLoads (extractedPayload s) with
    | none => exact Or.inl rfl
    | some v =>
      cases v with
      | arr ts => exact Or.inr ⟨ts, rfl, rfl⟩
      | null => exact Or.inl rfl
      | bool b => exact Or.inl rfl
      | num lit => exact Or.inl rfl
      | str s2 => exact Or.inl rfl
      | obj m => exact Or.inl rfl

/-- Witness for C4: the fail-closed branch applied to a concrete
undecodable input. -/
theorem parser_total_fail_closed_witness :
    parse_json_from_response "not json at all" = [] := by
  refine parser_total_fail_closed.1 "not json at all" ?_
  rintro ⟨ts, h⟩
  rw [show jsonLoads (extractedPayload "not json at all") = none from rfl] at h
  exact Option.noConfusion h

/-- Every run of the orchestrator body either raises (an error value) or
returns a result whose status is the literal `success`. -/
theorem agentBody_status (ext : Externals) (msg : Option String) :
    (∃ e, agentBody ext msg = Except.error e) ∨
    (∃ r, agentBody ext msg = Except.ok r ∧ r.status = "success") := by
  rw [agentBody]
  cases had : ext.agentDoc with
  | error e => exact Or.inl ⟨e, rfl⟩
  | ok ad =>
    dsimp only
    cases hak : ext.apiKey with
    | none => exact Or.inl ⟨"GOOGLE_API_KEY not found", rfl⟩
    | some k =>
      dsimp only
      cases hllm : ext.llmResponse with
      | error e => exact Or.inl ⟨e, rfl⟩
      | ok t =>
        dsimp only
        cases hmode : isTaskAssignmentMode msg with
        | false =>
          simp only [hmode, if_false, Bool.false_eq_true]
          exact Or.inr ⟨_, rfl, rfl⟩
        | true =>
          simp only [hmode, if_true]
          cases hpt : ext.projectTasks with
          | error e => exact Or.inl ⟨e, rfl⟩
          | ok pts =>
            dsimp only
            cases hvm : mapMExcept taskPrimaryId pts with
            | error e => exact Or.inl ⟨e, rfl⟩
            | ok vids =>
              dsimp only
              cases hdm : mapMExcept asDict (parse_json_from_response t) with
              | error e => exact Or.inl ⟨e, rfl⟩
              | ok pds =>
                dsimp only
                cases hasg : ext.assignment with
                | error e => exact Or.inl ⟨e, rfl⟩
                | ok asg =>
                  dsimp only
                  cases hpd : ext.projectDoc with
                  | error e => exact Or.inl ⟨e, rfl⟩
                  | ok pd => exact Or.inr ⟨_, rfl, rfl⟩

/-- C7: the orchestrator returns a status-error result exactly when an
external call of its body raised, and in that case the result carries the
human-readable error string; no exception escapes `run_learning_agent`, which
is a total function into result values. -/
theorem orchestrator_error_boundary (ext : Externals) (msg : Option String) :
    ((run_learning_agent ext msg).status = "error" ↔
      ∃ e, agentBody ext msg = Except.error e) ∧
    ∀ e, agentBody ext msg = Except.error e →
      run_learning_agent ext msg =
        { response_text := "An error occurred: " ++ e, status := "error",
          tasks := none } := by
  constructor
  · constructor
    · intro hs
      rcases agentBody_status ext msg with ⟨e, he⟩ | ⟨r, hr, hstat⟩
      · exact ⟨e, he⟩
      · rw [run_learning_agent, hr] at hs
        rw [hstat] at hs
        exact absurd hs (by decide)
    · rintro ⟨e, he⟩
      rw [run_learning_agent, he]
  · intro e he
    rw [run_learning_agent, he]

/-- Witness for C7: a failing model invocation at a concrete world is
converted into the error result. -/
theorem orchestrator_error_boundary_witness :
    run_learning_agent
        { agentDoc := Except.ok none, apiKey := some "key"
          llmResponse := Except.error "model unavailable"
          projectTasks := Except.ok [], assignment := Except.ok none
          projectDoc := Except.ok none } none =
      { response_text := "An error occurred: model unavailable", status := "error",
        tasks := none } :=
  (orchestrator_error_boundary _ none).2 "model unavailable" rfl

/-- C8: in task-assignment mode, when the authoritative project task list
cannot be fetched the orchestrator fails closed: the returned result has no
recommendation list (zero tasks) and status error. -/
theorem validation_fails_closed (ext : Externals) (msg : Option String) (e : String)
    (h1 : isTaskAssignmentMode msg = true)
    (h2 : ext.projectTasks = Except.error e) :
    (run_learning_agent ext msg).tasks = none ∧
    (run_learning_agent ext msg).status = "error" := by
  rw [run_learning_agent, agentBody]
  cases had : ext.agentDoc with
  | error e2 => exact ⟨rfl, rfl⟩
  | ok ad =>
    dsimp only
    cases hak : ext.apiKey with
    | none => exact ⟨rfl, rfl⟩
    | some k =>
      dsimp only
      cases hllm : ext.llmResponse with
      | error e2 => exact ⟨rfl, rfl⟩
      | ok t =>
        dsimp only
        simp [h1, h2]

/-- Witness for C8 at a concrete task-assignment invocation whose task-store
read fails. -/
theorem validation_fails_closed_witness :
    (run_learning_agent
        { agentDoc := Except.ok none, apiKey := some "key"
          llmResponse := Except.ok "[\x7b\"id\": \"t1\", \"title\": \"Intro\"\x7d]"
          projectTasks := Except.error "store unreachable"
          assignment := Except.ok none, projectDoc := Except.ok none }
        (some "share tasks")).tasks = none ∧
    (run_learning_agent
        { agentDoc := Except.ok none, apiKey := some "key"
          llmResponse := Except.ok "[\x7b\"id\": \"t1\", \"title\": \"Intro\"\x7d]"
          projectTasks := Except.error "store unreachable"
          assignment := Except.ok none, projectDoc := Except.ok none }
        (some "share tasks")).status = "error" :=
  validation_fails_closed _ (some "share tasks") "store unreachable" (by decide) rfl

/-- C6 (counterexample): a conversationally classified invocation whose model
text happens to be a numbered list makes the endpoint return a nonempty tasks
array re-parsed from that text, contradicting the claim that conversational
results always carry an empty recommendation list. -/
theorem conversational_counterexample :
    isTaskAssignmentMode (some "What skills do I need for a data science role?") = false ∧
    (chat_with_agent (some "What skills do I need for a data science role?")
        (run_learning_agent
          { agentDoc := Except.ok none, apiKey := some "key"
            llmResponse := Except.ok "1. Learn Python\n2. Build an API\n3. Deploy to cloud"
            projectTasks := Except.ok [], assignment := Except.ok none
            projectDoc := Except.ok none })).tasks =
      [{ taskId := "suggested_task_1", name := "Learn Python", isSuggested := true },
       { taskId := "suggested_task_2", name := "Build an API", isSuggested := true },
       { taskId := "suggested_task_3", name := "Deploy to cloud", isSuggested := true }] ∧
    (chat_with_agent (some "What skills do I need for a data science role?")
        (run_learning_agent
          { agentDoc := Except.ok none, apiKey := some "key"
            llmResponse := Except.ok "1. Learn Python\n2. Build an API\n3. Deploy to cloud"
            projectTasks := Except.ok [], assignment := Except.ok none
            projectDoc := Except.ok none })).tasks ≠ [] := by
  refine ⟨by decide, by decide, by decide⟩

/-- C6 (amended): for a conversational, non-name-update invocation whose
external calls succeed, the endpoint returns the model text unmodified with
status success, and its tasks array is empty provided the text does not look
like a numbered task list; when it does, the endpoint re-parses synthetic
tasks from the text. -/
theorem conversational_endpoint_result (ext : Externals) (msg : Option String)
    (t : String) (ad : Option Pdict) (k : String)
    (hmode : isTaskAssignmentMode msg = false)
    (hname : isNameUpdateMsg msg = false)
    (h1 : ext.agentDoc = Except.ok ad) (h2 : ext.apiKey = some k)
    (h3 : ext.llmResponse = Except.ok t) :
    (chat_with_agent msg (run_learning_agent ext)).message = t ∧
    (chat_with_agent msg (run_learning_agent ext)).status = "success" ∧
    (is_task_list_response t = false →
      (chat_with_agent msg (run_learning_agent ext)).tasks = []) ∧
    (is_task_list_response t = true →
      (chat_with_agent msg (run_learning_agent ext)).tasks =
        parse_agent_response_to_tasks t) := by
  have hrun : run_learning_agent ext msg =
      { response_text := t, status := "success", tasks := none } := by
    rw [run_learning_agent, agentBody, h1]
    dsimp only
    rw [h2]
    dsimp only
    rw [h3]
    dsimp only
    simp only [hmode, if_false, Bool.false_eq_true]
  rw [chat_with_agent, hname]
  simp only [Bool.false_eq_true, if_false]
  rw [hrun]
  dsimp only
  refine ⟨rfl, rfl, ?_, ?_⟩
  · intro hl
    simp only [hl, if_false, Bool.false_eq_true]
  · intro hl
    simp only [hl, if_true]

/-- Witness for C6 (amended) at a concrete conversational invocation with a
prose response. -/
theorem conversational_endpoint_result_witness :
    (chat_with_agent none
        (run_learning_agent
          { agentDoc := Except.ok none, apiKey := some "key"
            llmResponse := Except.ok "Hello there. Keep learning!"
            projectTasks := Except.ok [], assignment := Except.ok none
            projectDoc := Except.ok none })).message = "Hello there. Keep learning!" ∧
    (chat_with_agent none
        (run_learning_agent
          { agentDoc := Except.ok none, apiKey := some "key"
            llmResponse := Except.ok "Hello there. Keep learning!"
            projectTasks := Except.ok [], assignment := Except.ok none
            projectDoc := Except.ok none })).tasks = [] := by
  have h := conversational_endpoint_result
    { agentDoc := Except.ok none, apiKey := some "key"
      llmResponse := Except.ok "Hello there. Keep learning!"
      projectTasks := Except.ok [], assignment := Except.ok none
      projectDoc := Except.ok none }
    none "Hello there. Keep learning!" none "key" rfl rfl rfl rfl rfl
  exact ⟨h.1, h.2.2.1 (by decide)⟩

end ProjectSchool
namespace ProjectSchool

/-- A recommendation candidate as the round-trip property quantifies it: an identifier and a title. -/
structure Candidate where
  id : String
  title : String

/-- The decoded JSON object a candidate corresponds to. -/
def candJson (c : Candidate) : Json :=
  Json.obj [("id", Json.str c.id), ("title", Json.str c.title)]

/-- Characters that need no JSON string escaping and survive the fence-removal passes: not a double quote, backslash or backtick, and not a control character. -/
abbrev goodChars (s : List Char) : Prop :=
  ∀ ch ∈ s, ch ≠ qt ∧ ch ≠ bslash ∧ ch ≠ btick ∧ 32 ≤ ch.toNat

/-- JSON encoding of a string value whose characters need no escaping. -/
def encStr (s : String) : List Char := qt :: (s.data ++ [qt])

/-- JSON encoding of one candidate object, in the default two-field layout with colon-space and comma-space separators. -/
def encCand (c : Candidate) : List Char :=
  '{' :: qt :: 'i' :: 'd' :: qt :: ':' :: ' ' ::
    (encStr c.id ++ (',' :: ' ' :: qt :: 't' :: 'i' :: 't' :: 'l' :: 'e' :: qt :: ':' :: ' ' ::
      (encStr c.title ++ ['}'])))

/-- Reading back an encoded string body recovers its characters exactly. -/
theorem parseStringBody_rt (s : List Char) (rest : List Char) (h : goodChars s) :
    parseStringBody (s ++ qt :: rest) = some (s, rest) := by
  induction s with
  | nil => rw [List.nil_append, parseStringBody.eq_def]; dsimp only; rw [if_pos rfl]
  | cons c cs ih =>
    obtain ⟨h1, h2, h3, h4⟩ := h c (by simp)
    have h5 : ¬ c.toNat < 32 := by omega
    rw [List.cons_append, parseStringBody.eq_def]
    dsimp only
    rw [if_neg h1, if_neg h2, if_neg h5]
    rw [ih (fun ch hch => h ch (by simp [hch]))]
    rfl

/-- Leading-whitespace skipping stops at a non-whitespace head. -/
theorem skipWs_cons_of (c : Char) (t : List Char) (h : jsonWs c = false) :
    skipWs (c :: t) = c :: t := by
  simp [skipWs, List.dropWhile_cons, h]

/-- Leading-whitespace skipping passes over a space. -/
theorem skipWs_sp (t : List Char) : skipWs (' ' :: t) = skipWs t := rfl

/-- An encoded string starts with a quote, so whitespace skipping leaves it alone. -/
theorem skipWs_encStr (s : String) (X : List Char) :
    skipWs (encStr s ++ X) = encStr s ++ X := by
  rw [show encStr s ++ X = qt :: ((s.data ++ [qt]) ++ X) from by simp [encStr]]
  exact skipWs_cons_of qt _ (by decide)

/-- Reading the two-character identifier key of a candidate object. -/
theorem parseStringBody_key_id (r : List Char) :
    parseStringBody ('i' :: 'd' :: qt :: r) = some (['i', 'd'], r) := by
  rw [show ('i' :: 'd' :: qt :: r) = ['i', 'd'] ++ qt :: r from rfl]
  exact parseStringBody_rt ['i', 'd'] r (by decide)

/-- Reading the five-character title key of a candidate object. -/
theorem parseStringBody_key_title (r : List Char) :
    parseStringBody ('t' :: 'i' :: 't' :: 'l' :: 'e' :: qt :: r) =
      some (['t', 'i', 't', 'l', 'e'], r) := by
  rw [show ('t' :: 'i' :: 't' :: 'l' :: 'e' :: qt :: r) = ['t', 'i', 't', 'l', 'e'] ++ qt :: r from rfl]
  exact parseStringBody_rt ['t', 'i', 't', 'l', 'e'] r (by decide)

/-- Reading back an encoded string value yields exactly that string. -/
theorem parseVal_str (f : Nat) (s : String) (rest : List Char) (h : goodChars s.data) :
    parseVal (f + 1) (encStr s ++ rest) = some (Json.str s, rest) := by
  have he : encStr s ++ rest = qt :: (s.data ++ qt :: rest) := by
    simp [encStr]
  rw [he, parseVal, skipWs_cons_of qt _ (by decide)]
  dsimp only
  rw [if_pos rfl]
  rw [parseStringBody_rt s.data rest h]
  rfl

/-- Reading back an encoded candidate object yields its decoded JSON object, for any sufficient fuel. -/
theorem parseVal_cand (f : Nat) (c : Candidate) (rest : List Char)
    (hid : goodChars c.id.data) (htitle : goodChars c.title.data) :
    parseVal (f + 4) (encCand c ++ rest) = some (candJson c, rest) := by
  have hnorm : encCand c ++ rest =
      '{' :: qt :: 'i' :: 'd' :: qt :: ':' :: ' ' ::
        (encStr c.id ++ (',' :: ' ' :: qt :: 't' :: 'i' :: 't' :: 'l' :: 'e' :: qt :: ':' :: ' ' ::
          (encStr c.title ++ '}' :: rest))) := by
    simp [encCand, List.append_assoc]
  rw [hnorm]
  show parseVal ((f + 3) + 1) _ = _
  rw [parseVal, skipWs_cons_of '{' _ (by decide)]
  dsimp only
  rw [if_neg (by decide), if_neg (by decide), if_pos rfl]
  rw [skipWs_cons_of qt _ (by decide)]
  dsimp only
  rw [if_neg (by decide)]
  show Option.map _ (parseMembers ((f + 2) + 1) _) = _
  rw [parseMembers, skipWs_cons_of qt _ (by decide)]
  dsimp only
  rw [if_pos rfl, parseStringBody_key_id]
  dsimp only
  rw [skipWs_cons_of ':' _ (by decide)]
  dsimp only
  rw [if_pos rfl, skipWs_sp, skipWs_encStr]
  rw [show f + 2 = (f + 1) + 1 from rfl]
  rw [parseVal_str (f + 1) c.id _ hid]
  dsimp only
  rw [skipWs_cons_of ',' _ (by decide)]
  dsimp only
  rw [if_pos rfl, skipWs_sp, skipWs_cons_of qt _ (by decide)]
  show Option.map _ (match parseMembers ((f + 1) + 1) _ with
    | none => none
    | some (ms, r5) => some ((String.mk ['i', 'd'], Json.str c.id) :: ms, r5)) = _
  rw [parseMembers, skipWs_cons_of qt _ (by decide)]
  dsimp only
  rw [if_pos rfl, parseStringBody_key_title]
  dsimp only
  rw [skipWs_cons_of ':' _ (by decide)]
  dsimp only
  rw [if_pos rfl, skipWs_sp, skipWs_encStr]
  rw [parseVal_str f c.title _ htitle]
  dsimp only
  rw [skipWs_cons_of '}' _ (by decide)]
  dsimp only
  rw [if_neg (by decide), if_pos rfl]
  rfl

end ProjectSchool
namespace ProjectSchool

/-- Comma-space separated encodings of a candidate list. -/
def encCands : List Candidate → List Char
  | [] => []
  | [c] => encCand c
  | c :: cs => encCand c ++ ',' :: ' ' :: encCands cs

/-- JSON encoding of a candidate list: the bracketed, comma-separated candidate objects, as the default JSON serialization would produce. -/
def encCandList (l : List Candidate) : List Char := '[' :: (encCands l ++ [']'])

/-- Both fields of the candidate consist of characters needing no escaping. -/
abbrev goodCand (c : Candidate) : Prop := goodChars c.id.data ∧ goodChars c.title.data

/-- A nonempty encoded candidate sequence starts with an opening brace. -/
theorem encCands_head (c : Candidate) (l : List Candidate) :
    ∃ t, encCands (c :: l) = '{' :: t := by
  cases l with
  | nil => exact ⟨_, rfl⟩
  | cons d l' => exact ⟨_, rfl⟩

/-- Each encoded candidate contributes at least one character. -/
theorem encCands_length (c : Candidate) (l : List Candidate) :
    l.length + 1 ≤ (encCands (c :: l)).length := by
  induction l generalizing c with
  | nil => simp [encCands, encCand]
  | cons d l' ih =>
    have := ih d
    rw [show encCands (c :: d :: l') = encCand c ++ ',' :: ' ' :: encCands (d :: l') from rfl]
    simp only [List.length_append, List.length_cons]
    omega

/-- Reading back the encoded elements of a nonempty candidate list followed by a closing bracket yields exactly the decoded objects, for any sufficient fuel. -/
theorem parseElems_rt (l : List Candidate) : ∀ (c : Candidate) (f : Nat) (rest : List Char),
    (∀ d ∈ c :: l, goodCand d) →
    l.length + 5 ≤ f →
    parseElems f (encCands (c :: l) ++ ']' :: rest) = some ((c :: l).map candJson, rest) := by
  induction l with
  | nil =>
    intro c f rest h hf
    obtain ⟨g, rfl⟩ : ∃ g, f = (g + 4) + 1 := ⟨f - 5, by omega⟩
    obtain ⟨h1, h2⟩ := h c (by simp)
    rw [show encCands [c] = encCand c from rfl]
    rw [parseElems, parseVal_cand g c _ h1 h2]
    dsimp only
    rw [skipWs_cons_of ']' _ (by decide)]
    dsimp only
    rw [if_neg (by decide), if_pos rfl]
    rfl
  | cons d l' ih =>
    intro c f rest h hf
    obtain ⟨g, rfl⟩ : ∃ g, f = (g + 4) + 1 := ⟨f - 5, by omega⟩
    obtain ⟨h1, h2⟩ := h c (by simp)
    rw [show encCands (c :: d :: l') = encCand c ++ ',' :: ' ' :: encCands (d :: l') from rfl]
    rw [show (encCand c ++ ',' :: ' ' :: encCands (d :: l')) ++ ']' :: rest =
        encCand c ++ ',' :: ' ' :: (encCands (d :: l') ++ ']' :: rest) from by
      simp [List.append_assoc]]
    rw [parseElems, parseVal_cand g c _ h1 h2]
    dsimp only
    rw [skipWs_cons_of ',' _ (by decide)]
    dsimp only
    rw [if_pos rfl, skipWs_sp]
    obtain ⟨t, ht⟩ := encCands_head d l'
    have hsk : skipWs (encCands (d :: l') ++ ']' :: rest) = encCands (d :: l') ++ ']' :: rest := by
      rw [ht, List.cons_append]
      exact skipWs_cons_of '{' _ (by decide)
    rw [hsk]
    rw [ih d (g + 4) rest (fun x hx => h x (by simp at hx ⊢; tauto)) (by simp at hf; omega)]
    rfl

/-- Reading back an encoded candidate list yields the decoded JSON array, for any sufficient fuel. -/
theorem parseVal_encCandList (f : Nat) (c : Candidate) (l : List Candidate) (rest : List Char)
    (h : ∀ d ∈ c :: l, goodCand d) (hf : l.length + 6 ≤ f) :
    parseVal f (encCandList (c :: l) ++ rest) =
      some (Json.arr ((c :: l).map candJson), rest) := by
  obtain ⟨g, rfl⟩ : ∃ g, f = g + 1 := ⟨f - 1, by omega⟩
  rw [show encCandList (c :: l) ++ rest = '[' :: (encCands (c :: l) ++ ']' :: rest) from by
    simp [encCandList, List.append_assoc]]
  rw [parseVal, skipWs_cons_of '[' _ (by decide)]
  dsimp only
  rw [if_neg (by decide), if_pos rfl]
  obtain ⟨t, ht⟩ := encCands_head c l
  have hsk : skipWs (encCands (c :: l) ++ ']' :: rest) = encCands (c :: l) ++ ']' :: rest := by
    rw [ht, List.cons_append]
    exact skipWs_cons_of '{' _ (by decide)
  rw [hsk, ht, List.cons_append]
  dsimp only
  rw [if_neg (by decide)]
  rw [← List.cons_append, ← ht]
  rw [parseElems_rt l c g rest h (by omega)]
  rfl

/-- Round trip through the decoder: decoding the encoding of a candidate list yields exactly the corresponding JSON array. -/
theorem jsonLoads_encCandList (l : List Candidate) (h : ∀ d ∈ l, goodCand d) :
    jsonLoads (encCandList l) = some (Json.arr (l.map candJson)) := by
  cases l with
  | nil => rfl
  | cons c l' =>
    rw [jsonLoads]
    have hlen := encCands_length c l'
    have hf : l'.length + 6 ≤ 2 * (encCandList (c :: l')).length + 2 := by
      simp only [encCandList, List.length_cons, List.length_append, List.length_singleton]
      omega
    have := parseVal_encCandList (2 * (encCandList (c :: l')).length + 2) c l' [] h hf
    rw [List.append_nil] at this
    rw [this]
    rfl

end ProjectSchool
namespace ProjectSchool

/-- The first substitution pass leaves the empty input empty. -/
theorem subFenceJsonF_nil (f : Nat) : subFenceJsonF f [] = [] := by
  cases f with
  | zero => rfl
  | succ g => rfl

/-- The second substitution pass leaves the empty input empty. -/
theorem subFenceF_nil (f : Nat) : subFenceF f [] = [] := by
  cases f with
  | zero => rfl
  | succ g => rfl

/-- A window starting with a non-backtick character is not the long fence marker. -/
theorem take_ne_fenceJson_of_head (c : Char) (t : List Char) (h : c ≠ btick) :
    (c :: t).take 7 ≠ fenceJsonChars := by
  intro habs
  rw [List.take_succ_cons] at habs
  exact h (List.cons.injEq .. |>.mp habs).1

/-- A window starting with a non-backtick character is not the bare fence marker. -/
theorem take_ne_fence_of_head (c : Char) (t : List Char) (h : c ≠ btick) :
    (c :: t).take 3 ≠ fenceChars := by
  intro habs
  rw [List.take_succ_cons] at habs
  exact h (List.cons.injEq .. |>.mp habs).1

/-- The first substitution pass does not depend on the fuel once it covers the input length. -/
theorem subFenceJsonF_fuelIrrel (f : Nat) : ∀ (g : Nat) (l : List Char),
    l.length ≤ f → l.length ≤ g → subFenceJsonF f l = subFenceJsonF g l := by
  induction f with
  | zero =>
    intro g l hf hg
    have : l = [] := List.eq_nil_of_length_eq_zero (by omega)
    subst this
    rw [subFenceJsonF_nil, subFenceJsonF_nil]
  | succ f ih =>
    intro g l hf hg
    cases l with
    | nil => rw [subFenceJsonF_nil, subFenceJsonF_nil]
    | cons c rest =>
      obtain ⟨g', rfl⟩ : ∃ g', g = g' + 1 := ⟨g - 1, by simp at hg; omega⟩
      rw [subFenceJsonF, subFenceJsonF]
      split
      · have hlen : ((rest.drop 6).dropWhile pyIsSpace).length ≤ rest.length := by
          calc ((rest.drop 6).dropWhile pyIsSpace).length
              ≤ (rest.drop 6).length := (List.dropWhile_sublist pyIsSpace).length_le
            _ ≤ rest.length := (List.drop_sublist 6 rest).length_le
        simp only [List.length_cons] at hf hg
        exact ih g' _ (by omega) (by omega)
      · simp only [List.length_cons] at hf hg
        rw [ih g' rest (by omega) (by omega)]

/-- The second substitution pass does not depend on the fuel once it covers the input length. -/
theorem subFenceF_fuelIrrel (f : Nat) : ∀ (g : Nat) (l : List Char),
    l.length ≤ f → l.length ≤ g → subFenceF f l = subFenceF g l := by
  induction f with
  | zero =>
    intro g l hf hg
    have : l = [] := List.eq_nil_of_length_eq_zero (by omega)
    subst this
    rw [subFenceF_nil, subFenceF_nil]
  | succ f ih =>
    intro g l hf hg
    cases l with
    | nil => rw [subFenceF_nil, subFenceF_nil]
    | cons c rest =>
      obtain ⟨g', rfl⟩ : ∃ g', g = g' + 1 := ⟨g - 1, by simp at hg; omega⟩
      rw [subFenceF, subFenceF]
      split
      · have hlen : ((rest.drop 2).dropWhile pyIsSpace).length ≤ rest.length := by
          calc ((rest.drop 2).dropWhile pyIsSpace).length
              ≤ (rest.drop 2).length := (List.dropWhile_sublist pyIsSpace).length_le
            _ ≤ rest.length := (List.drop_sublist 2 rest).length_le
        simp only [List.length_cons] at hf hg
        exact ih g' _ (by omega) (by omega)
      · simp only [List.length_cons] at hf hg
        rw [ih g' rest (by omega) (by omega)]

/-- The first substitution pass copies a backtick-free prefix unchanged. -/
theorem subFenceJsonF_hom (x : List Char) : ∀ (t : List Char) (f : Nat),
    (∀ ch ∈ x, ch ≠ btick) → x.length + t.length ≤ f →
    subFenceJsonF f (x ++ t) = x ++ subFenceJson t := by
  induction x with
  | nil =>
    intro t f hx hf
    rw [List.nil_append, List.nil_append, subFenceJson]
    exact subFenceJsonF_fuelIrrel f t.length t (by simpa using hf) (le_refl _)
  | cons c x' ih =>
    intro t f hx hf
    obtain ⟨f', rfl⟩ : ∃ f', f = f' + 1 := ⟨f - 1, by simp at hf; omega⟩
    rw [List.cons_append, subFenceJsonF]
    rw [if_neg (take_ne_fenceJson_of_head c _ (hx c (by simp)))]
    rw [ih t f' (fun ch hch => hx ch (by simp [hch])) (by simp at hf; omega)]
    rfl

/-- The second substitution pass copies a backtick-free prefix unchanged. -/
theorem subFenceF_hom (x : List Char) : ∀ (t : List Char) (f : Nat),
    (∀ ch ∈ x, ch ≠ btick) → x.length + t.length ≤ f →
    subFenceF f (x ++ t) = x ++ subFence t := by
  induction x with
  | nil =>
    intro t f hx hf
    rw [List.nil_append, List.nil_append, subFence]
    exact subFenceF_fuelIrrel f t.length t (by simpa using hf) (le_refl _)
  | cons c x' ih =>
    intro t f hx hf
    obtain ⟨f', rfl⟩ : ∃ f', f = f' + 1 := ⟨f - 1, by simp at hf; omega⟩
    rw [List.cons_append, subFenceF]
    rw [if_neg (take_ne_fence_of_head c _ (hx c (by simp)))]
    rw [ih t f' (fun ch hch => hx ch (by simp [hch])) (by simp at hf; omega)]
    rfl

/-- A backtick-free text passes through the first substitution unchanged. -/
theorem subFenceJson_nofence (x : List Char) (hx : ∀ ch ∈ x, ch ≠ btick) :
    subFenceJson x = x := by
  rw [subFenceJson]
  have := subFenceJsonF_hom x [] x.length hx (by simp)
  simp only [List.append_nil] at this
  rw [this, subFenceJson, subFenceJsonF_nil, List.append_nil]

/-- A backtick-free text passes through the second substitution unchanged. -/
theorem subFence_nofence (x : List Char) (hx : ∀ ch ∈ x, ch ≠ btick) :
    subFence x = x := by
  rw [subFence]
  have := subFenceF_hom x [] x.length hx (by simp)
  simp only [List.append_nil] at this
  rw [this, subFence, subFenceF_nil, List.append_nil]

/-- The first substitution deletes a leading long fence marker and the whitespace after it. -/
theorem subFenceJsonF_consume (f : Nat) (t : List Char) :
    subFenceJsonF (f + 1) (fenceJsonChars ++ t) = subFenceJsonF f (t.dropWhile pyIsSpace) := by
  rw [show fenceJsonChars ++ t =
      btick :: ([btick, btick, 'j', 's', 'o', 'n'] ++ t) from rfl]
  rw [subFenceJsonF]
  rw [if_pos (by
    rw [show btick :: ([btick, btick, 'j', 's', 'o', 'n'] ++ t) = fenceJsonChars ++ t from rfl]
    rw [show (7 : Nat) = fenceJsonChars.length from rfl, List.take_left])]
  rw [show ([btick, btick, 'j', 's', 'o', 'n'] ++ t).drop 6 = t from
    List.drop_left [btick, btick, 'j', 's', 'o', 'n'] t]

/-- The second substitution deletes a leading bare fence marker and the whitespace after it. -/
theorem subFenceF_consume (f : Nat) (t : List Char) :
    subFenceF (f + 1) (fenceChars ++ t) = subFenceF f (t.dropWhile pyIsSpace) := by
  rw [show fenceChars ++ t = btick :: ([btick, btick] ++ t) from rfl]
  rw [subFenceF]
  rw [if_pos (by
    rw [show btick :: ([btick, btick] ++ t) = fenceChars ++ t from rfl]
    rw [show (3 : Nat) = fenceChars.length from rfl, List.take_left])]
  rw [show ([btick, btick] ++ t).drop 2 = t from List.drop_left [btick, btick] t]

/-- The first substitution only deletes characters. -/
theorem subFenceJsonF_sublist : ∀ (f : Nat) (l : List Char), (subFenceJsonF f l).Sublist l := by
  intro f
  induction f with
  | zero => intro l; exact List.Sublist.refl l
  | succ f ih =>
    intro l
    cases l with
    | nil => exact List.Sublist.refl []
    | cons c rest =>
      rw [subFenceJsonF]
      split
      · have h1 : ((rest.drop 6).dropWhile pyIsSpace).Sublist rest :=
          (List.dropWhile_sublist pyIsSpace).trans (List.drop_sublist 6 rest)
        exact ((ih _).trans h1).cons c
      · exact (ih rest).cons₂ c

/-- The second substitution only deletes characters. -/
theorem subFenceF_sublist : ∀ (f : Nat) (l : List Char), (subFenceF f l).Sublist l := by
  intro f
  induction f with
  | zero => intro l; exact List.Sublist.refl l
  | succ f ih =>
    intro l
    cases l with
    | nil => exact List.Sublist.refl []
    | cons c rest =>
      rw [subFenceF]
      split
      · have h1 : ((rest.drop 2).dropWhile pyIsSpace).Sublist rest :=
          (List.dropWhile_sublist pyIsSpace).trans (List.drop_sublist 2 rest)
        exact ((ih _).trans h1).cons c
      · exact (ih rest).cons₂ c

/-- Fence removal (long marker) only deletes characters. -/
theorem subFenceJson_sublist (l : List Char) : (subFenceJson l).Sublist l :=
  subFenceJsonF_sublist l.length l

/-- Fence removal (bare marker) only deletes characters. -/
theorem subFence_sublist (l : List Char) : (subFence l).Sublist l :=
  subFenceF_sublist l.length l

end ProjectSchool
namespace ProjectSchool

/-- Dropping a prefix stops at a failing head of the second part. -/
theorem dropWhile_append_head (p : Char → Bool) (a : List Char) (c : Char) (t : List Char)
    (hc : p c = false) :
    (a ++ c :: t).dropWhile p = a.dropWhile p ++ c :: t := by
  rw [List.dropWhile_append]
  split
  · rename_i hemp
    rw [List.dropWhile_cons, if_neg (by simp [hc])]
    simp only [List.isEmpty_iff] at hemp
    rw [hemp, List.nil_append]
  · rfl

/-- Stripping a text whose middle part starts and ends with non-whitespace trims only the two outer parts. -/
theorem pyStrip_decomp (a m b : List Char) (c1 : Char) (t1 : List Char)
    (hm1 : m = c1 :: t1) (hc1 : pyIsSpace c1 = false)
    (c2 : Char) (t2 : List Char) (hm2 : m.reverse = c2 :: t2) (hc2 : pyIsSpace c2 = false) :
    pyStrip (a ++ (m ++ b)) =
      a.dropWhile pyIsSpace ++ (m ++ (b.reverse.dropWhile pyIsSpace).reverse) := by
  rw [pyStrip]
  rw [show a ++ (m ++ b) = a ++ (c1 :: (t1 ++ b)) from by rw [hm1]; simp]
  rw [dropWhile_append_head pyIsSpace a c1 _ hc1]
  rw [show a.dropWhile pyIsSpace ++ c1 :: (t1 ++ b) =
      a.dropWhile pyIsSpace ++ ((c1 :: t1) ++ b) from by simp]
  rw [← hm1]
  rw [List.reverse_append, List.reverse_append]
  rw [show b.reverse ++ m.reverse ++ (a.dropWhile pyIsSpace).reverse =
      b.reverse ++ (c2 :: (t2 ++ (a.dropWhile pyIsSpace).reverse)) from by
    rw [hm2]; simp]
  rw [dropWhile_append_head pyIsSpace b.reverse c2 _ hc2]
  rw [show b.reverse.dropWhile pyIsSpace ++ c2 :: (t2 ++ (a.dropWhile pyIsSpace).reverse) =
      b.reverse.dropWhile pyIsSpace ++ (m.reverse ++ (a.dropWhile pyIsSpace).reverse) from by
    rw [hm2]; simp]
  simp [List.reverse_append]

/-- The bracket span of a text built around one bracketed segment, with no opening bracket before it and no closing bracket after it, is exactly that segment. -/
theorem bracketSpan_extract (u mid w : List Char)
    (hu : ∀ ch ∈ u, ch ≠ '[') (hw : ∀ ch ∈ w, ch ≠ ']') :
    bracketSpan (u ++ '[' :: (mid ++ ']' :: w)) = some ('[' :: (mid ++ [']'])) := by
  rw [bracketSpan]
  have h1 : (u ++ '[' :: (mid ++ ']' :: w)).dropWhile (fun c => c ≠ '[') =
      '[' :: (mid ++ ']' :: w) := by
    rw [dropWhile_append_head _ u '[' _ (by simp)]
    rw [List.dropWhile_eq_nil_iff.mpr (by intro x hx; simp [hu x hx]), List.nil_append]
  rw [h1]
  dsimp only
  rw [if_neg (by simp)]
  have h2 : ('[' :: (mid ++ ']' :: w)).reverse =
      w.reverse ++ ']' :: (mid.reverse ++ ['[']) := by
    simp
  rw [h2]
  rw [show w.reverse ++ ']' :: (mid.reverse ++ ['[']) =
      w.reverse ++ (']' :: (mid.reverse ++ ['['])) from rfl]
  rw [dropWhile_append_head _ w.reverse ']' _ (by simp)]
  rw [List.dropWhile_eq_nil_iff.mpr (by intro x hx; simp at hx; simp [hw x hx]), List.nil_append]
  rw [if_neg (by simp)]
  simp

end ProjectSchool
namespace ProjectSchool

/-- An encoded string over fence-safe characters contains no backtick. -/
theorem encStr_no_btick (s : String) (h : goodChars s.data) :
    ∀ ch ∈ encStr s, ch ≠ btick := by
  intro ch hch
  rw [encStr] at hch
  rcases List.mem_cons.mp hch with rfl | hch2
  · decide
  rcases List.mem_append.mp hch2 with hf | hq
  · exact (h ch hf).2.2.1
  · rcases List.mem_singleton.mp hq with rfl
    decide

/-- An encoded candidate over fence-safe fields contains no backtick. -/
theorem encCand_no_btick (c : Candidate) (h : goodCand c) :
    ∀ ch ∈ encCand c, ch ≠ btick := by
  intro ch hch
  rw [encCand] at hch
  rcases List.mem_cons.mp hch with rfl | hch
  · decide
  rcases List.mem_cons.mp hch with rfl | hch
  · decide
  rcases List.mem_cons.mp hch with rfl | hch
  · decide
  rcases List.mem_cons.mp hch with rfl | hch
  · decide
  rcases List.mem_cons.mp hch with rfl | hch
  · decide
  rcases List.mem_cons.mp hch with rfl | hch
  · decide
  rcases List.mem_cons.mp hch with rfl | hch
  · decide
  rcases List.mem_append.mp hch with hid | hch
  · exact encStr_no_btick c.id h.1 ch hid
  rcases List.mem_cons.mp hch with rfl | hch
  · decide
  rcases List.mem_cons.mp hch with rfl | hch
  · decide
  rcases List.mem_cons.mp hch with rfl | hch
  · decide
  rcases List.mem_cons.mp hch with rfl | hch
  · decide
  rcases List.mem_cons.mp hch with rfl | hch
  · decide
  rcases List.mem_cons.mp hch with rfl | hch
  · decide
  rcases List.mem_cons.mp hch with rfl | hch
  · decide
  rcases List.mem_cons.mp hch with rfl | hch
  · decide
  rcases List.mem_cons.mp hch with rfl | hch
  · decide
  rcases List.mem_cons.mp hch with rfl | hch
  · decide
  rcases List.mem_cons.mp hch with rfl | hch
  · decide
  rcases List.mem_append.mp hch with ht | hch
  · exact encStr_no_btick c.title h.2 ch ht
  rcases List.mem_singleton.mp hch with rfl
  decide

/-- An encoded candidate sequence over fence-safe fields contains no backtick. -/
theorem encCands_no_btick (l : List Candidate) (h : ∀ d ∈ l, goodCand d) :
    ∀ ch ∈ encCands l, ch ≠ btick := by
  induction l with
  | nil => intro ch hch; simp [encCands] at hch
  | cons c l' ih =>
    intro ch hch
    cases l' with
    | nil => exact encCand_no_btick c (h c (by simp)) ch hch
    | cons d l'' =>
      rw [show encCands (c :: d :: l'') = encCand c ++ ',' :: ' ' :: encCands (d :: l'') from rfl]
        at hch
      rcases List.mem_append.mp hch with h1 | h2
      · exact encCand_no_btick c (h c (by simp)) ch h1
      rcases List.mem_cons.mp h2 with rfl | h3
      · decide
      rcases List.mem_cons.mp h3 with rfl | h4
      · decide
      · exact ih (fun x hx => h x (by simp at hx ⊢; tauto)) ch h4

/-- An encoded candidate list over fence-safe fields contains no backtick. -/
theorem encCandList_no_btick (l : List Candidate) (h : ∀ d ∈ l, goodCand d) :
    ∀ ch ∈ encCandList l, ch ≠ btick := by
  intro ch hch
  rw [encCandList] at hch
  rcases List.mem_cons.mp hch with rfl | hch
  · decide
  rcases List.mem_append.mp hch with h1 | h2
  · exact encCands_no_btick l h ch h1
  rcases List.mem_singleton.mp h2 with rfl
  decide

/-- The reversal of an encoded candidate list starts with the closing bracket. -/
theorem encCandList_reverse (l : List Candidate) :
    (encCandList l).reverse = ']' :: ((encCands l).reverse ++ ['[']) := by
  rw [encCandList]
  simp

end ProjectSchool
namespace ProjectSchool

/-- A model response wrapping the payload in a markdown code fence with surrounding prose: prose, the long fence marker, a newline, the payload, a newline, the bare fence marker, a newline, and trailing prose. -/
def wrapFence (body pre post : List Char) : List Char :=
  pre ++ (fenceJsonChars ++ ('\n' :: (body ++ ('\n' :: (fenceChars ++ ('\n' :: post))))))

/-- The parser pipeline narrows a fence-wrapped, prose-surrounded encoded candidate list down to exactly the encoding, provided the prose carries no backtick, no opening bracket before the payload and no closing bracket after it, and the fields are fence-safe. -/
theorem extractedPayload_wrapped (l : List Candidate) (pre post : List Char)
    (hl : ∀ d ∈ l, goodCand d)
    (hpre : ∀ ch ∈ pre, ch ≠ btick ∧ ch ≠ '[')
    (hpost : ∀ ch ∈ post, ch ≠ btick ∧ ch ≠ ']') :
    extractedPayload (String.mk (wrapFence (encCandList l) pre post)) = encCandList l := by
  have hbody_btick : ∀ ch ∈ encCandList l, ch ≠ btick := encCandList_no_btick l hl
  -- step 1: the outer strip trims only the prose ends
  have hw : wrapFence (encCandList l) pre post =
      pre ++ ((fenceJsonChars ++ ('\n' :: (encCandList l ++ ('\n' :: fenceChars)))) ++
        ('\n' :: post)) := by
    simp [wrapFence, List.append_assoc]
  have hm1 : fenceJsonChars ++ ('\n' :: (encCandList l ++ ('\n' :: fenceChars))) =
      btick :: ([btick, btick, 'j', 's', 'o', 'n'] ++
        ('\n' :: (encCandList l ++ ('\n' :: fenceChars)))) := rfl
  have hm2 : (fenceJsonChars ++ ('\n' :: (encCandList l ++ ('\n' :: fenceChars)))).reverse =
      btick :: ((fenceJsonChars ++ ('\n' :: (encCandList l ++ ('\n' :: [btick, btick])))).reverse) := by
    rw [show fenceJsonChars ++ ('\n' :: (encCandList l ++ ('\n' :: fenceChars))) =
        (fenceJsonChars ++ ('\n' :: (encCandList l ++ ('\n' :: [btick, btick])))) ++ [btick] from by
      simp [fenceChars, List.append_assoc]]
    simp
  have hstep1 : pyStrip (wrapFence (encCandList l) pre post) =
      pre.dropWhile pyIsSpace ++
        ((fenceJsonChars ++ ('\n' :: (encCandList l ++ ('\n' :: fenceChars)))) ++
          ((('\n' :: post).reverse.dropWhile pyIsSpace).reverse)) := by
    rw [hw]
    exact pyStrip_decomp pre _ ('\n' :: post) btick _ hm1 (by decide) btick _ hm2 (by decide)
  -- name the trimmed prose pieces
  obtain ⟨Q, hQdef⟩ : ∃ Q, (('\n' :: post).reverse.dropWhile pyIsSpace).reverse = Q := ⟨_, rfl⟩
  have hQmem : ∀ ch ∈ Q, ch = '\n' ∨ ch ∈ post := by
    intro ch hch
    rw [← hQdef, List.mem_reverse] at hch
    have h2 := (List.dropWhile_sublist pyIsSpace).subset hch
    rw [List.mem_reverse] at h2
    simpa using h2
  rw [hQdef] at hstep1
  obtain ⟨u0, hu0def⟩ : ∃ u0, pre.dropWhile pyIsSpace = u0 := ⟨_, rfl⟩
  have hu0mem : ∀ ch ∈ u0, ch ∈ pre := by
    intro ch hch
    rw [← hu0def] at hch
    exact (List.dropWhile_sublist pyIsSpace).subset hch
  rw [hu0def] at hstep1
  -- step 2: the first substitution removes the opening fence and nothing else
  have hstep2 : subFenceJson (u0 ++
      ((fenceJsonChars ++ ('\n' :: (encCandList l ++ ('\n' :: fenceChars)))) ++ Q)) =
      u0 ++ (encCandList l ++ subFenceJson ('\n' :: (fenceChars ++ Q))) := by
    rw [subFenceJson]
    rw [subFenceJsonF_hom u0 _ _ (fun ch hch => (hpre ch (hu0mem ch hch)).1) (by simp)]
    have hMQ : (fenceJsonChars ++ ('\n' :: (encCandList l ++ ('\n' :: fenceChars)))) ++ Q =
        fenceJsonChars ++ ('\n' :: (encCandList l ++ ('\n' :: (fenceChars ++ Q)))) := by
      simp [List.append_assoc]
    rw [hMQ, subFenceJson]
    rw [show (fenceJsonChars ++
          ('\n' :: (encCandList l ++ ('\n' :: (fenceChars ++ Q))))).length =
        (6 + ('\n' :: (encCandList l ++ ('\n' :: (fenceChars ++ Q)))).length) + 1 from by
      simp [fenceJsonChars]
      omega]
    rw [subFenceJsonF_consume]
    have hT : ('\n' :: (encCandList l ++ ('\n' :: (fenceChars ++ Q)))).dropWhile pyIsSpace =
        encCandList l ++ ('\n' :: (fenceChars ++ Q)) := by
      rw [List.dropWhile_cons, if_pos (by decide)]
      rw [show encCandList l ++ ('\n' :: (fenceChars ++ Q)) =
          '[' :: ((encCands l ++ [']']) ++ ('\n' :: (fenceChars ++ Q))) from by
        simp [encCandList]]
      rw [List.dropWhile_cons, if_neg (by decide)]
    rw [hT]
    rw [subFenceJsonF_hom (encCandList l) _ _ hbody_btick (by simp; omega)]
  simp only [extractedPayload]
  rw [hstep1, hstep2]
  obtain ⟨W1, hW1def⟩ : ∃ W1, subFenceJson ('\n' :: (fenceChars ++ Q)) = W1 := ⟨_, rfl⟩
  have hW1mem : ∀ ch ∈ W1, ch = '\n' ∨ ch = btick ∨ ch ∈ post := by
    intro ch hch
    rw [← hW1def] at hch
    have h2 := (subFenceJson_sublist _).subset hch
    rcases List.mem_cons.mp h2 with rfl | h3
    · exact Or.inl rfl
    rcases List.mem_append.mp h3 with h4 | h5
    · right; left
      have h6 : ch = btick ∨ ch = btick ∨ ch = btick := by simpa [fenceChars] using h4
      tauto
    · rcases hQmem ch h5 with h6 | h6
      · exact Or.inl h6
      · exact Or.inr (Or.inr h6)
  rw [hW1def]
  -- step 3: the second substitution passes prose and body through
  have hstep3 : subFence (u0 ++ (encCandList l ++ W1)) =
      u0 ++ (encCandList l ++ subFence W1) := by
    rw [show u0 ++ (encCandList l ++ W1) = (u0 ++ encCandList l) ++ W1 from by
      simp [List.append_assoc]]
    rw [subFence]
    rw [subFenceF_hom (u0 ++ encCandList l) W1 _ (by
      intro ch hch
      rcases List.mem_append.mp hch with h1 | h2
      · exact (hpre ch (hu0mem ch h1)).1
      · exact hbody_btick ch h2) (by simp; omega)]
    simp [List.append_assoc]
  rw [hstep3]
  obtain ⟨W2, hW2def⟩ : ∃ W2, subFence W1 = W2 := ⟨_, rfl⟩
  have hW2mem : ∀ ch ∈ W2, ch = '\n' ∨ ch = btick ∨ ch ∈ post := by
    intro ch hch
    rw [← hW2def] at hch
    exact hW1mem ch ((subFence_sublist _).subset hch)
  rw [hW2def]
  -- step 4: the second strip trims only the tail prose
  have hstep4 : pyStrip (u0 ++ (encCandList l ++ W2)) =
      u0.dropWhile pyIsSpace ++
        (encCandList l ++ (W2.reverse.dropWhile pyIsSpace).reverse) := by
    exact pyStrip_decomp u0 (encCandList l) W2 '[' _ rfl (by decide) ']' _
      (encCandList_reverse l) (by decide)
  rw [hstep4]
  obtain ⟨W3, hW3def⟩ : ∃ W3, (W2.reverse.dropWhile pyIsSpace).reverse = W3 := ⟨_, rfl⟩
  have hW3mem : ∀ ch ∈ W3, ch ≠ ']' := by
    intro ch hch
    rw [← hW3def, List.mem_reverse] at hch
    have h2 := (List.dropWhile_sublist pyIsSpace).subset hch
    rw [List.mem_reverse] at h2
    rcases hW2mem ch h2 with rfl | rfl | h3
    · decide
    · decide
    · exact (hpost ch h3).2
  rw [hW3def]
  obtain ⟨u1, hu1def⟩ : ∃ u1, u0.dropWhile pyIsSpace = u1 := ⟨_, rfl⟩
  have hu1mem : ∀ ch ∈ u1, ch ≠ '[' := by
    intro ch hch
    rw [← hu1def] at hch
    exact (hpre ch (hu0mem ch ((List.dropWhile_sublist pyIsSpace).subset hch))).2
  rw [hu1def]
  -- step 5: the bracket span recovers exactly the encoded array
  have hspan : bracketSpan (u1 ++ (encCandList l ++ W3)) =
      some ('[' :: (encCands l ++ [']'])) := by
    rw [show u1 ++ (encCandList l ++ W3) = u1 ++ '[' :: (encCands l ++ ']' :: W3) from by
      simp [encCandList, List.append_assoc]]
    exact bracketSpan_extract u1 (encCands l) W3 hu1mem hW3mem
  rw [hspan]
  rfl

end ProjectSchool
namespace ProjectSchool

/-- The parser pipeline passes a bare encoded candidate list through unchanged. -/
theorem extractedPayload_bare (l : List Candidate) (hl : ∀ d ∈ l, goodCand d) :
    extractedPayload (String.mk (encCandList l)) = encCandList l := by
  have hbody_btick : ∀ ch ∈ encCandList l, ch ≠ btick := encCandList_no_btick l hl
  simp only [extractedPayload]
  have hstrip : pyStrip (encCandList l) = encCandList l := by
    have h := pyStrip_decomp [] (encCandList l) [] '[' _ rfl (by decide) ']' _
      (encCandList_reverse l) (by decide)
    simpa using h
  rw [hstrip, subFenceJson_nofence _ hbody_btick, subFence_nofence _ hbody_btick, hstrip]
  have hspan : bracketSpan (encCandList l) = some ('[' :: (encCands l ++ [']'])) := by
    have h := bracketSpan_extract [] (encCands l) [] (by simp) (by simp)
    simpa [encCandList] using h
  rw [hspan]
  rfl

/-- Round trip through the full parser for the fence-wrapped, prose-surrounded form. -/
theorem roundtrip_wrapped (l : List Candidate) (pre post : List Char)
    (hl : ∀ d ∈ l, goodCand d)
    (hpre : ∀ ch ∈ pre, ch ≠ btick ∧ ch ≠ '[')
    (hpost : ∀ ch ∈ post, ch ≠ btick ∧ ch ≠ ']') :
    parse_json_from_response (String.mk (wrapFence (encCandList l) pre post)) =
      l.map candJson := by
  rw [parse_json_from_response, extractedPayload_wrapped l pre post hl hpre hpost,
    jsonLoads_encCandList l hl]

/-- Round trip through the full parser for the bare form. -/
theorem roundtrip_bare (l : List Candidate) (hl : ∀ d ∈ l, goodCand d) :
    parse_json_from_response (String.mk (encCandList l)) = l.map candJson := by
  rw [parse_json_from_response, extractedPayload_bare l hl, jsonLoads_encCandList l hl]

/-- C3 (counterexample): a candidate whose title contains a fence marker is
corrupted by the parser: the JSON-encoded list comes back with the marker
deleted from the title, so the recovered list is not the original and the
field value is not byte-identical. -/
theorem parser_roundtrip_counterexample :
    parse_json_from_response (String.mk (encCandList [⟨"x", "a```b"⟩])) =
      [candJson ⟨"x", "ab"⟩] ∧
    candJson ⟨"x", "ab"⟩ ≠ candJson ⟨"x", "a```b"⟩ := by
  constructor
  · rfl
  · intro h
    simp [candJson] at h

/-- C3 (amended): the Response Parser recovers a JSON-encoded candidate list
exactly — whether wrapped in a markdown code fence with surrounding prose or
bare — provided the field values contain no double quote, backslash, backtick
or control character, the prose before the payload contains no backtick or
opening bracket, and the prose after it contains no backtick or closing
bracket. -/
theorem parser_roundtrip (l : List Candidate) (pre post : List Char)
    (hl : ∀ d ∈ l, goodCand d)
    (hpre : ∀ ch ∈ pre, ch ≠ btick ∧ ch ≠ '[')
    (hpost : ∀ ch ∈ post, ch ≠ btick ∧ ch ≠ ']') :
    parse_json_from_response (String.mk (wrapFence (encCandList l) pre post)) =
      l.map candJson ∧
    parse_json_from_response (String.mk (encCandList l)) = l.map candJson :=
  ⟨roundtrip_wrapped l pre post hl hpre hpost, roundtrip_bare l hl⟩

/-- Witness for C3 (amended) at a concrete two-candidate list with prose and
fence. -/
theorem parser_roundtrip_witness :
    parse_json_from_response
        (String.mk (wrapFence (encCandList [⟨"t1", "Intro"⟩, ⟨"t2", "Build an API"⟩])
          "Here you go:\n".data "Enjoy!".data)) =
      [candJson ⟨"t1", "Intro"⟩, candJson ⟨"t2", "Build an API"⟩] ∧
    parse_json_from_response
        (String.mk (encCandList [⟨"t1", "Intro"⟩, ⟨"t2", "Build an API"⟩])) =
      [candJson ⟨"t1", "Intro"⟩, candJson ⟨"t2", "Build an API"⟩] :=
  parser_roundtrip [⟨"t1", "Intro"⟩, ⟨"t2", "Build an API"⟩]
    "Here you go:\n".data "Enjoy!".data (by decide) (by decide) (by decide)

end ProjectSchool
